import Mathlib

/-!
Shallow embedding of the binary-morphology engine of
`src/IPL/src/processes/IPLMorphologyBinary.cpp` (ImagePlay), together with
theorems settling the frozen claims about it.

An image plane is modelled as a function from integer coordinates to the
pixel value (a natural number; the plane stores the two sentinel scalars
0 and 1).  The C++ template `applyMorphology<T,F>` scans, per pixel, the
cells of the square structuring element in flat order with an index that
is advanced only for in-bounds neighbours (the `continue` on the bounds
test skips the `i++`), short-circuiting at the first active cell whose
neighbour equals the truth sentinel `T`; the per-iteration buffer swap
plus the final extra swap is reproduced literally.
-/

namespace IPL

/-- A binary image plane: pixel value at integer coordinates (x, y). -/
def ImagePlane : Type := Int → Int → Nat

/-- Coordinates (x, y) lie inside the w × h raster. -/
def inRange (w h : Nat) (x y : Int) : Prop :=
  0 ≤ x ∧ x < (w : Int) ∧ 0 ≤ y ∧ y < (h : Int)

instance (w h : Nat) (x y : Int) : Decidable (inRange w h x y) := by
  unfold inRange
  exact inferInstance

/-- Two planes agree on every pixel of the w × h raster. -/
def eqOnPlane (w h : Nat) (f g : ImagePlane) : Prop :=
  ∀ x y : Int, inRange w h x y → f x y = g x y

/-- Integer square root, the value of `(int)sqrt((float)n)` in the source for
the kernel sizes in use: the largest m with m * m ≤ n.  (Defined by counting
so that concrete instances reduce inside the kernel.) -/
def intSqrt (n : Nat) : Nat :=
  ((List.range (n + 1)).countP fun m => decide (m * m ≤ n)) - 1

/-- Relative (row, col) offsets of a square neighbourhood of radius kO, in the
scan order of the C++ loops: `ky` (row offset) outer, `kx` (col offset) inner,
both from `-kO` to `kO`. -/
def offsets (kO : Nat) : List (Int × Int) :=
  (List.range (2 * kO + 1)).flatMap fun dy =>
    (List.range (2 * kO + 1)).map fun dx =>
      (((dy : Int) - (kO : Int)), ((dx : Int) - (kO : Int)))

/-- One step of the kernel scan of `applyMorphology`: state is the `cancel`
flag and the flat kernel index `i`.  A set `cancel` flag freezes the state
(the C++ loops exit); an out-of-bounds neighbour is skipped without touching
the index (the `continue` comes before `kernel[i++]`); otherwise the flag
becomes `mask && (pixel == T)` and the index advances. -/
def scanStep (T : Nat) (w h : Nat) (kernel : List Bool) (src : ImagePlane)
    (x y : Int) (st : Bool × Nat) (o : Int × Int) : Bool × Nat :=
  if st.1 then st
  else if x + o.2 < 0 ∨ (w : Int) ≤ x + o.2 ∨ y + o.1 < 0 ∨ (h : Int) ≤ y + o.1 then st
  else (kernel.getD st.2 false && (src (x + o.2) (y + o.1) == T), st.2 + 1)

/-- The value `applyMorphology` writes at pixel (x, y) in one pass:
`T` when the scan sets the cancel flag, else `F`.  The kernel radius is
`(int)sqrt(kernel.size()) / 2` as in the source. -/
def appPixel (T F : Nat) (w h : Nat) (kernel : List Bool) (src : ImagePlane)
    (x y : Int) : Nat :=
  if ((offsets (intSqrt kernel.length / 2)).foldl
        (scanStep T w h kernel src x y) (false, 0)).1
  then T else F

/-- Processing of one row `y` inside a pass: every pixel of the row is
written into the destination plane, then the progress callback runs once.
The C++ row loop is an OpenMP parallel for; rows write disjoint pixels from
a frozen source, so the resulting plane is independent of row order, but the
relative order of callback invocations across rows is a choice of this
sequential model and is not fixed by the code. -/
def rowStep (σ : Type) (T F : Nat) (w h : Nat) (kernel : List Bool) (cb : σ → σ)
    (src : ImagePlane) (st : ImagePlane × σ) (y : Nat) : ImagePlane × σ :=
  (fun a b =>
      if b = (y : Int) ∧ 0 ≤ a ∧ a < (w : Int) then appPixel T F w h kernel src a b
      else st.1 a b,
   cb st.2)

/-- One full pass of `applyMorphology` over the raster: rows 0 … h-1 in
order, each followed by one progress callback (a serialization of the
parallel row loop; see `rowStep`). -/
def onePass (σ : Type) (T F : Nat) (w h : Nat) (kernel : List Bool) (cb : σ → σ)
    (src dst : ImagePlane) (s : σ) : ImagePlane × σ :=
  (List.range h).foldl (rowStep σ T F w h kernel cb src) (dst, s)

/-- The iteration loop of `applyMorphology`: each iteration writes a pass
into `dst` and then swaps the two buffers (`std::swap(src,dst)`).  The result
is the final (src, dst, state) triple before the extra swap. -/
def applyLoop (σ : Type) (T F : Nat) (w h : Nat) (kernel : List Bool) (cb : σ → σ) :
    Nat → ImagePlane → ImagePlane → σ → ImagePlane × ImagePlane × σ
  | 0, src, dst, s => (src, dst, s)
  | Nat.succ n, src, dst, s =>
      let r := onePass σ T F w h kernel cb src dst s
      applyLoop σ T F w h kernel cb n r.1 src r.2

/-- The template `applyMorphology<T,F>`: the iteration loop followed by the
final extra `std::swap(src,dst)`.  The returned triple is the final content
of the caller's (src, dst) reference arguments plus the callback state. -/
def applyMorphology (σ : Type) (T F : Nat) (w h : Nat) (kernel : List Bool)
    (iterations : Nat) (cb : σ → σ) (src dst : ImagePlane) (s : σ) :
    ImagePlane × ImagePlane × σ :=
  let r := applyLoop σ T F w h kernel cb iterations src dst s
  (r.2.1, r.1, r.2.2)

/-- The `dilate` wrapper: copies the source plane into a private buffer
(`IPLImagePlane input(src)`) and runs `applyMorphology<1,0>` on the copy, so
the caller's source plane is returned unchanged. -/
def dilate (σ : Type) (w h : Nat) (kernel : List Bool) (iterations : Nat)
    (cb : σ → σ) (src dst : ImagePlane) (s : σ) : ImagePlane × ImagePlane × σ :=
  let input : ImagePlane := src
  let r := applyMorphology σ 1 0 w h kernel iterations cb input dst s
  (src, r.2.1, r.2.2)

/-- The `erode` wrapper: copies the source plane and runs
`applyMorphology<0,1>` on the copy. -/
def erode (σ : Type) (w h : Nat) (kernel : List Bool) (iterations : Nat)
    (cb : σ → σ) (src dst : ImagePlane) (s : σ) : ImagePlane × ImagePlane × σ :=
  let input : ImagePlane := src
  let r := applyMorphology σ 0 1 w h kernel iterations cb input dst s
  (src, r.2.1, r.2.2)

/-- The `open` compound operator: erode into dst, swap the local copy with
dst, dilate.  (Named `open'` because `open` is reserved in Lean.) -/
def open' (σ : Type) (w h : Nat) (kernel : List Bool) (iterations : Nat)
    (cb : σ → σ) (src dst : ImagePlane) (s : σ) : ImagePlane × ImagePlane × σ :=
  let input : ImagePlane := src
  let r1 := erode σ w h kernel iterations cb input dst s
  let r2 := dilate σ w h kernel iterations cb r1.2.1 r1.1 r1.2.2
  (src, r2.2.1, r2.2.2)

/-- The `close` compound operator: dilate into dst, swap, erode. -/
def close (σ : Type) (w h : Nat) (kernel : List Bool) (iterations : Nat)
    (cb : σ → σ) (src dst : ImagePlane) (s : σ) : ImagePlane × ImagePlane × σ :=
  let input : ImagePlane := src
  let r1 := dilate σ w h kernel iterations cb input dst s
  let r2 := erode σ w h kernel iterations cb r1.2.1 r1.1 r1.2.2
  (src, r2.2.1, r2.2.2)

/-- The progress lambda of `processInputData`: increments the shared counter
and reports `100 * counter / totalLines` to the sink (the report list).  The
C++ computes the fraction in single-precision float; it is modelled here as
an exact rational, so theorems about individual reported values would hold
of the model, not of the rounded floats — no claim theorem relies on them. -/
def updateProgress (totalLines : Int) (st : Nat × List ℚ) : Nat × List ℚ :=
  (st.1 + 1, st.2 ++ [100 * ((st.1 + 1 : Nat) : ℚ) / (totalLines : ℚ)])

/-- Modelled from the spec: the constructor `IPLImage(IPLImage::IMAGE_BW,
width, height)` used for the fresh result (`_result = new IPLImage(...)`) is
not part of the sources under verification; the spec fixes only that the
call returns "a newly owned binary raster of identical dimensions" whose
pixels hold one of the two sentinel values.  The freshly allocated plane is
modelled as all-background; no claim theorem depends on this content except
through exact equality with `freshPlane` itself ("left untouched"). -/
def freshPlane : ImagePlane := fun _ _ => 0

/-- `IPLMorphologyBinary::processInputData`: allocates a fresh result plane,
converts the integer kernel to booleans (`i > 0`), computes
`totalLines = height * iterations` (doubled in the OPEN/CLOSE branches before
the call), dispatches on the operation selector (no `default` case: any value
outside 0–3 performs no morphology), and returns `true`.  The returned triple
is (return value, result plane, reported progress fractions). -/
def processInputData (kernelInt : List Int) (iterations : Int) (operation : Int)
    (image : ImagePlane) (w h : Nat) : Bool × ImagePlane × List ℚ :=
  let result : ImagePlane := freshPlane
  let kernel : List Bool := kernelInt.map fun i => decide (0 < i)
  let totalLines : Int := (h : Int) * iterations
  if operation = 0 then
    let r := dilate (Nat × List ℚ) w h kernel iterations.toNat
      (updateProgress totalLines) image result (0, [])
    (true, r.2.1, r.2.2.2)
  else if operation = 1 then
    let r := erode (Nat × List ℚ) w h kernel iterations.toNat
      (updateProgress totalLines) image result (0, [])
    (true, r.2.1, r.2.2.2)
  else if operation = 2 then
    let totalLines2 := totalLines * 2
    let r := open' (Nat × List ℚ) w h kernel iterations.toNat
      (updateProgress totalLines2) image result (0, [])
    (true, r.2.1, r.2.2.2)
  else if operation = 3 then
    let totalLines2 := totalLines * 2
    let r := close (Nat × List ℚ) w h kernel iterations.toNat
      (updateProgress totalLines2) image result (0, [])
    (true, r.2.1, r.2.2.2)
  else
    (true, result, [])

/-- One pass of the transform as a plane-to-plane map: inside the raster the
pixel is recomputed by the kernel scan, outside it is untouched. -/
def generation (T F : Nat) (w h : Nat) (kernel : List Bool) (f : ImagePlane) :
    ImagePlane :=
  fun x y => if inRange w h x y then appPixel T F w h kernel f x y else f x y

/-- Pixel predicate following the specification's fixed index-to-offset
mapping: the flat mask flag of index `(ky+kO)*(2*kO+1) + (kx+kO)` is matched
to the relative offset `(ky, kx)` identically at every pixel, and an
out-of-bounds neighbour is skipped without contributing to the predicate. -/
def appPixelSpec (T F : Nat) (w h : Nat) (kernel : List Bool) (src : ImagePlane)
    (x y : Int) : Nat :=
  let kO := intSqrt kernel.length / 2
  if ((offsets kO).enum.any fun io =>
        !(decide (x + io.2.2 < 0 ∨ (w : Int) ≤ x + io.2.2 ∨ y + io.2.1 < 0 ∨
             (h : Int) ≤ y + io.2.1)) &&
        kernel.getD io.1 false && (src (x + io.2.2) (y + io.2.1) == T))
  then T else F

/-! Concrete rasters and structuring elements used by the claim theorems. -/

/-- The all-background plane (a freshly allocated IMAGE_BW result). -/
def zeroPlane : ImagePlane := fun _ _ => 0

/-- A 2 × 2 raster whose only foreground pixel is (0, 0). -/
def img22 : ImagePlane := fun x y => if x = 0 ∧ y = 0 then 1 else 0

/-- The all-foreground plane. -/
def onePlane : ImagePlane := fun _ _ => 1

/-- A 3 × 3 structuring element whose only active cell is flat index 0
(the top-left corner, relative offset (-1, -1)). -/
def cornerK : List Bool :=
  [true, false, false, false, false, false, false, false, false]

/-- The identity structuring element: a 3 × 3 mask whose only active cell is
the centre (flat index 4) — the default kernel of `IPLMorphologyBinary`. -/
def idK : List Bool :=
  [false, false, false, false, true, false, false, false, false]

/-- A 5 × 5 raster whose only foreground pixel is (2, 2). -/
def imgC6 : ImagePlane := fun x y => if x = 2 ∧ y = 2 then 1 else 0

/-- Expected Scenario A output: the 3 × 3 block centred at (2, 2) foreground,
everything else background. -/
def expectedC6 : ImagePlane :=
  fun x y => if 1 ≤ x ∧ x ≤ 3 ∧ 1 ≤ y ∧ y ≤ 3 then 1 else 0

/-- A 3 × 3 structuring element with flat indices 0 and 1 active. -/
def kC4 : List Bool :=
  [true, true, false, false, false, false, false, false, false]

/-- A 1 × 3 raster (single column) with foreground at rows 1 and 2. -/
def xC4 : ImagePlane := fun x y => if x = 0 ∧ (y = 1 ∨ y = 2) then 1 else 0

/-! Helper lemmas: congruence of the kernel scan in the source plane,
extraction of the row fold, and the shape of the iteration loop. -/

theorem eqOnPlane_trans {w h : Nat} {f g k : ImagePlane}
    (h1 : eqOnPlane w h f g) (h2 : eqOnPlane w h g k) : eqOnPlane w h f k :=
  fun x y hxy => (h1 x y hxy).trans (h2 x y hxy)

theorem scanFold_congr (T : Nat) (w h : Nat) (kernel : List Bool)
    (f g : ImagePlane) (x y : Int) (hfg : eqOnPlane w h f g) :
    ∀ (L : List (Int × Int)) (st : Bool × Nat),
      L.foldl (scanStep T w h kernel f x y) st
        = L.foldl (scanStep T w h kernel g x y) st := by
  intro L
  induction L with
  | nil => intro st; rfl
  | cons o L ih =>
      intro st
      have hstep : scanStep T w h kernel f x y st o
          = scanStep T w h kernel g x y st o := by
        unfold scanStep
        by_cases h1 : st.1 = true
        · rw [if_pos h1, if_pos h1]
        · rw [if_neg h1, if_neg h1]
          by_cases h2 : x + o.2 < 0 ∨ (w : Int) ≤ x + o.2 ∨ y + o.1 < 0 ∨
              (h : Int) ≤ y + o.1
          · rw [if_pos h2, if_pos h2]
          · rw [if_neg h2, if_neg h2]
            push_neg at h2
            obtain ⟨ha, hb, hc, hd⟩ := h2
            rw [hfg _ _ ⟨ha, hb, hc, hd⟩]
      simp only [List.foldl_cons]
      rw [hstep]
      exact ih _

theorem appPixel_congr (T F : Nat) (w h : Nat) (kernel : List Bool)
    (f g : ImagePlane) (x y : Int) (hfg : eqOnPlane w h f g) :
    appPixel T F w h kernel f x y = appPixel T F w h kernel g x y := by
  unfold appPixel
  rw [scanFold_congr T w h kernel f g x y hfg]

theorem generation_congr (T F : Nat) (w h : Nat) (kernel : List Bool)
    (f g : ImagePlane) (hfg : eqOnPlane w h f g) :
    eqOnPlane w h (generation T F w h kernel f) (generation T F w h kernel g) := by
  intro x y hxy
  unfold generation
  rw [if_pos hxy, if_pos hxy]
  exact appPixel_congr T F w h kernel f g x y hfg

theorem generation_iterate_congr (T F : Nat) (w h : Nat) (kernel : List Bool)
    (n : Nat) (f g : ImagePlane) (hfg : eqOnPlane w h f g) :
    eqOnPlane w h ((generation T F w h kernel)^[n] f)
      ((generation T F w h kernel)^[n] g) := by
  induction n generalizing f g with
  | zero => exact hfg
  | succ n ih =>
      rw [Function.iterate_succ_apply, Function.iterate_succ_apply]
      exact ih _ _ (generation_congr T F w h kernel f g hfg)

theorem foldRows_snd (σ : Type) (T F : Nat) (w h : Nat) (kernel : List Bool)
    (cb : σ → σ) (src : ImagePlane) :
    ∀ (L : List Nat) (init : ImagePlane × σ),
      (L.foldl (rowStep σ T F w h kernel cb src) init).2 = cb^[L.length] init.2 := by
  intro L
  induction L with
  | nil => intro init; rfl
  | cons a L ih =>
      intro init
      simp only [List.foldl_cons, List.length_cons]
      rw [ih]
      rw [Function.iterate_succ_apply]
      rfl

theorem onePass_snd (σ : Type) (T F : Nat) (w h : Nat) (kernel : List Bool)
    (cb : σ → σ) (src dst : ImagePlane) (s : σ) :
    (onePass σ T F w h kernel cb src dst s).2 = cb^[h] s := by
  unfold onePass
  rw [foldRows_snd]
  rw [List.length_range]

theorem foldRows_fst (σ : Type) (T F : Nat) (w h : Nat) (kernel : List Bool)
    (cb : σ → σ) (src : ImagePlane) :
    ∀ (L : List Nat) (init : ImagePlane × σ) (x y : Int),
      (L.foldl (rowStep σ T F w h kernel cb src) init).1 x y
        = if (∃ r ∈ L, (r : Int) = y) ∧ 0 ≤ x ∧ x < (w : Int)
          then appPixel T F w h kernel src x y else init.1 x y := by
  intro L
  induction L with
  | nil => intro init x y; simp
  | cons a L ih =>
      intro init x y
      simp only [List.foldl_cons]
      rw [ih]
      have hrow : (rowStep σ T F w h kernel cb src init a).1 x y
          = if y = (a : Int) ∧ 0 ≤ x ∧ x < (w : Int)
            then appPixel T F w h kernel src x y else init.1 x y := rfl
      by_cases hx : 0 ≤ x ∧ x < (w : Int)
      · by_cases hy : ∃ r ∈ L, (r : Int) = y
        · rw [if_pos ⟨hy, hx⟩]
          rcases hy with ⟨r, hrL, hr⟩
          rw [if_pos ⟨⟨r, List.mem_cons_of_mem a hrL, hr⟩, hx⟩]
        · rw [if_neg (by intro hcon; exact hy hcon.1)]
          rw [hrow]
          by_cases hya : y = (a : Int)
          · rw [if_pos ⟨hya, hx⟩]
            rw [if_pos ⟨⟨a, List.mem_cons_self a L, hya.symm⟩, hx⟩]
          · rw [if_neg (by intro hcon; exact hya hcon.1)]
            rw [if_neg (by
              intro hcon
              rcases hcon.1 with ⟨r, hrL, hr⟩
              rcases List.mem_cons.mp hrL with h' | h'
              · exact hya (h' ▸ hr).symm
              · exact hy ⟨r, h', hr⟩)]
      · rw [if_neg (by intro hcon; exact hx hcon.2)]
        rw [hrow]
        rw [if_neg (by intro hcon; exact hx hcon.2)]
        rw [if_neg (by intro hcon; exact hx hcon.2)]

theorem onePass_fst (σ : Type) (T F : Nat) (w h : Nat) (kernel : List Bool)
    (cb : σ → σ) (src dst : ImagePlane) (s : σ) (x y : Int)
    (hxy : inRange w h x y) :
    (onePass σ T F w h kernel cb src dst s).1 x y
      = appPixel T F w h kernel src x y := by
  obtain ⟨hx0, hxw, hy0, hyh⟩ := hxy
  unfold onePass
  rw [foldRows_fst]
  rw [if_pos]
  refine ⟨⟨y.toNat, List.mem_range.mpr (by omega), by omega⟩, hx0, hxw⟩

theorem onePass_eqOn_generation (σ : Type) (T F : Nat) (w h : Nat)
    (kernel : List Bool) (cb : σ → σ) (src dst : ImagePlane) (s : σ) :
    eqOnPlane w h ((onePass σ T F w h kernel cb src dst s).1)
      (generation T F w h kernel src) := by
  intro x y hxy
  rw [onePass_fst σ T F w h kernel cb src dst s x y hxy]
  unfold generation
  rw [if_pos hxy]

theorem applyLoop_fst (σ : Type) (T F : Nat) (w h : Nat) (kernel : List Bool)
    (cb : σ → σ) :
    ∀ (n : Nat) (src dst : ImagePlane) (s : σ),
      eqOnPlane w h ((applyLoop σ T F w h kernel cb n src dst s).1)
        ((generation T F w h kernel)^[n] src) := by
  intro n
  induction n with
  | zero => intro src dst s x y hxy; rfl
  | succ n ih =>
      intro src dst s
      have hrec : applyLoop σ T F w h kernel cb (n + 1) src dst s
          = applyLoop σ T F w h kernel cb n
              (onePass σ T F w h kernel cb src dst s).1 src
              (onePass σ T F w h kernel cb src dst s).2 := rfl
      rw [hrec]
      refine eqOnPlane_trans (ih _ _ _) ?_
      rw [Function.iterate_succ_apply]
      exact generation_iterate_congr T F w h kernel n _ _
        (onePass_eqOn_generation σ T F w h kernel cb src dst s)

theorem applyLoop_state (σ : Type) (T F : Nat) (w h : Nat) (kernel : List Bool)
    (cb : σ → σ) :
    ∀ (n : Nat) (src dst : ImagePlane) (s : σ),
      (applyLoop σ T F w h kernel cb n src dst s).2.2 = cb^[h * n] s := by
  intro n
  induction n with
  | zero => intro src dst s; rfl
  | succ n ih =>
      intro src dst s
      have hrec : applyLoop σ T F w h kernel cb (n + 1) src dst s
          = applyLoop σ T F w h kernel cb n
              (onePass σ T F w h kernel cb src dst s).1 src
              (onePass σ T F w h kernel cb src dst s).2 := rfl
      rw [hrec, ih, onePass_snd]
      rw [← Function.iterate_add_apply]
      congr 1

theorem applyMorphology_dst (σ : Type) (T F : Nat) (w h : Nat)
    (kernel : List Bool) (n : Nat) (cb : σ → σ) (src dst : ImagePlane) (s : σ) :
    eqOnPlane w h ((applyMorphology σ T F w h kernel n cb src dst s).2.1)
      ((generation T F w h kernel)^[n] src) :=
  applyLoop_fst σ T F w h kernel cb n src dst s

theorem applyMorphology_state (σ : Type) (T F : Nat) (w h : Nat)
    (kernel : List Bool) (n : Nat) (cb : σ → σ) (src dst : ImagePlane) (s : σ) :
    (applyMorphology σ T F w h kernel n cb src dst s).2.2 = cb^[h * n] s :=
  applyLoop_state σ T F w h kernel cb n src dst s

theorem dilate_dst (σ : Type) (w h : Nat) (kernel : List Bool) (n : Nat)
    (cb : σ → σ) (src dst : ImagePlane) (s : σ) :
    eqOnPlane w h ((dilate σ w h kernel n cb src dst s).2.1)
      ((generation 1 0 w h kernel)^[n] src) :=
  applyMorphology_dst σ 1 0 w h kernel n cb src dst s

theorem erode_dst (σ : Type) (w h : Nat) (kernel : List Bool) (n : Nat)
    (cb : σ → σ) (src dst : ImagePlane) (s : σ) :
    eqOnPlane w h ((erode σ w h kernel n cb src dst s).2.1)
      ((generation 0 1 w h kernel)^[n] src) :=
  applyMorphology_dst σ 0 1 w h kernel n cb src dst s

theorem dilate_state (σ : Type) (w h : Nat) (kernel : List Bool) (n : Nat)
    (cb : σ → σ) (src dst : ImagePlane) (s : σ) :
    (dilate σ w h kernel n cb src dst s).2.2 = cb^[h * n] s :=
  applyMorphology_state σ 1 0 w h kernel n cb src dst s

theorem erode_state (σ : Type) (w h : Nat) (kernel : List Bool) (n : Nat)
    (cb : σ → σ) (src dst : ImagePlane) (s : σ) :
    (erode σ w h kernel n cb src dst s).2.2 = cb^[h * n] s :=
  applyMorphology_state σ 0 1 w h kernel n cb src dst s

theorem open_dst (σ : Type) (w h : Nat) (kernel : List Bool) (n : Nat)
    (cb : σ → σ) (src dst : ImagePlane) (s : σ) :
    eqOnPlane w h ((open' σ w h kernel n cb src dst s).2.1)
      ((generation 1 0 w h kernel)^[n] ((generation 0 1 w h kernel)^[n] src)) := by
  refine eqOnPlane_trans (dilate_dst σ w h kernel n cb _ _ _) ?_
  exact generation_iterate_congr 1 0 w h kernel n _ _
    (erode_dst σ w h kernel n cb src dst s)

theorem close_dst (σ : Type) (w h : Nat) (kernel : List Bool) (n : Nat)
    (cb : σ → σ) (src dst : ImagePlane) (s : σ) :
    eqOnPlane w h ((close σ w h kernel n cb src dst s).2.1)
      ((generation 0 1 w h kernel)^[n] ((generation 1 0 w h kernel)^[n] src)) := by
  refine eqOnPlane_trans (erode_dst σ w h kernel n cb _ _ _) ?_
  exact generation_iterate_congr 0 1 w h kernel n _ _
    (dilate_dst σ w h kernel n cb src dst s)

theorem open_state (σ : Type) (w h : Nat) (kernel : List Bool) (n : Nat)
    (cb : σ → σ) (src dst : ImagePlane) (s : σ) :
    (open' σ w h kernel n cb src dst s).2.2 = cb^[h * n + h * n] s := by
  unfold open'
  rw [dilate_state, erode_state]
  rw [← Function.iterate_add_apply]

theorem close_state (σ : Type) (w h : Nat) (kernel : List Bool) (n : Nat)
    (cb : σ → σ) (src dst : ImagePlane) (s : σ) :
    (close σ w h kernel n cb src dst s).2.2 = cb^[h * n + h * n] s := by
  unfold close
  rw [erode_state, dilate_state]
  rw [← Function.iterate_add_apply]

end IPL

namespace IPL

/-- Pixel-wise negation of a binary plane: background (0) becomes
foreground (1) and vice versa. -/
def negPlane (f : ImagePlane) : ImagePlane :=
  fun x y => if f x y = 0 then 1 else 0

theorem eqOnPlane_symm {w h : Nat} {f g : ImagePlane}
    (h1 : eqOnPlane w h f g) : eqOnPlane w h g f :=
  fun x y hxy => (h1 x y hxy).symm

theorem scanFold_duality (w h : Nat) (kernel : List Bool) (f : ImagePlane)
    (x y : Int) :
    ∀ (L : List (Int × Int)) (st : Bool × Nat),
      L.foldl (scanStep 0 w h kernel f x y) st
        = L.foldl (scanStep 1 w h kernel (negPlane f) x y) st := by
  intro L
  induction L with
  | nil => intro st; rfl
  | cons o L ih =>
      intro st
      have hstep : scanStep 0 w h kernel f x y st o
          = scanStep 1 w h kernel (negPlane f) x y st o := by
        unfold scanStep
        by_cases h1 : st.1 = true
        · rw [if_pos h1, if_pos h1]
        · rw [if_neg h1, if_neg h1]
          by_cases h2 : x + o.2 < 0 ∨ (w : Int) ≤ x + o.2 ∨ y + o.1 < 0 ∨
              (h : Int) ≤ y + o.1
          · rw [if_pos h2, if_pos h2]
          · rw [if_neg h2, if_neg h2]
            have hpix : (f (x + o.2) (y + o.1) == 0)
                = (negPlane f (x + o.2) (y + o.1) == 1) := by
              unfold negPlane
              by_cases hp : f (x + o.2) (y + o.1) = 0
              · rw [if_pos hp]
                simp [hp]
              · rw [if_neg hp]
                simp [hp]
            rw [hpix]
      simp only [List.foldl_cons]
      rw [hstep]
      exact ih _

theorem appPixel_duality (w h : Nat) (kernel : List Bool) (f : ImagePlane)
    (x y : Int) :
    appPixel 0 1 w h kernel f x y
      = (if appPixel 1 0 w h kernel (negPlane f) x y = 0 then 1 else 0) := by
  unfold appPixel
  rw [scanFold_duality w h kernel f x y]
  by_cases hc : ((offsets (intSqrt kernel.length / 2)).foldl
      (scanStep 1 w h kernel (negPlane f) x y) (false, 0)).1 = true
  · rw [if_pos hc, if_pos hc]
    simp
  · rw [if_neg hc, if_neg hc]
    simp

/-- C3.  Duality of the two sentinel instantiations: for every raster X and
every structuring element, one Erode iteration on X agrees, on every raster
pixel, with the pixel-wise negation of one Dilate iteration on the pixel-wise
negation of X. -/
theorem erode_eq_neg_dilate_neg (σ σ' : Type) (w h : Nat) (kernel : List Bool)
    (cb : σ → σ) (cb' : σ' → σ') (X dst dst' : ImagePlane) (s : σ) (s' : σ') :
    eqOnPlane w h ((erode σ w h kernel 1 cb X dst s).2.1)
      (negPlane ((dilate σ' w h kernel 1 cb' (negPlane X) dst' s').2.1)) := by
  intro x y hxy
  rw [erode_dst σ w h kernel 1 cb X dst s x y hxy]
  have hd := dilate_dst σ' w h kernel 1 cb' (negPlane X) dst' s' x y hxy
  have hneg : negPlane ((dilate σ' w h kernel 1 cb' (negPlane X) dst' s').2.1) x y
      = if (dilate σ' w h kernel 1 cb' (negPlane X) dst' s').2.1 x y = 0
        then 1 else 0 := rfl
  rw [hneg, hd]
  rw [Function.iterate_one, Function.iterate_one]
  unfold generation
  rw [if_pos hxy, if_pos hxy]
  exact appPixel_duality w h kernel X x y

/-- C5.  For every iteration count N ≥ 1, when the primitive returns, the
destination plane supplied by the caller holds exactly the N-th generation
(the single-pass transform applied N times), and the two-stage Open and
Close compositions hold the N-fold second stage applied to the N-fold first
stage (2 × N passes), regardless of the internal buffer exchanges. -/
theorem destination_holds_final_generation (σ : Type) (w h : Nat)
    (kernel : List Bool) (N : Nat) (cb : σ → σ) (src dst : ImagePlane) (s : σ)
    (hN : 1 ≤ N) :
    eqOnPlane w h ((dilate σ w h kernel N cb src dst s).2.1)
        ((generation 1 0 w h kernel)^[N] src) ∧
      eqOnPlane w h ((erode σ w h kernel N cb src dst s).2.1)
        ((generation 0 1 w h kernel)^[N] src) ∧
      eqOnPlane w h ((open' σ w h kernel N cb src dst s).2.1)
        ((generation 1 0 w h kernel)^[N] ((generation 0 1 w h kernel)^[N] src)) ∧
      eqOnPlane w h ((close σ w h kernel N cb src dst s).2.1)
        ((generation 0 1 w h kernel)^[N] ((generation 1 0 w h kernel)^[N] src)) :=
  ⟨dilate_dst σ w h kernel N cb src dst s,
   erode_dst σ w h kernel N cb src dst s,
   open_dst σ w h kernel N cb src dst s,
   close_dst σ w h kernel N cb src dst s⟩

/-- C5 witness at a concrete instance (N = 1). -/
theorem destination_holds_final_generation_witness :
    1 ≤ 1 ∧
      (eqOnPlane 1 1 ((dilate Unit 1 1 idK 1 id onePlane zeroPlane ()).2.1)
          ((generation 1 0 1 1 idK)^[1] onePlane) ∧
        eqOnPlane 1 1 ((erode Unit 1 1 idK 1 id onePlane zeroPlane ()).2.1)
          ((generation 0 1 1 1 idK)^[1] onePlane) ∧
        eqOnPlane 1 1 ((open' Unit 1 1 idK 1 id onePlane zeroPlane ()).2.1)
          ((generation 1 0 1 1 idK)^[1] ((generation 0 1 1 1 idK)^[1] onePlane)) ∧
        eqOnPlane 1 1 ((close Unit 1 1 idK 1 id onePlane zeroPlane ()).2.1)
          ((generation 0 1 1 1 idK)^[1] ((generation 1 0 1 1 idK)^[1] onePlane))) :=
  ⟨by decide,
   destination_holds_final_generation Unit 1 1 idK 1 id onePlane zeroPlane ()
     (by decide)⟩

/-- C9.  For every operation, structuring element and iteration count, the
caller's original source plane is returned unchanged (the wrappers copy it
before the first iteration), and the destination raster the caller receives
is a function of the source alone — it does not depend on the previous
contents of the destination buffer. -/
theorem source_unchanged_and_dst_private (σ : Type) (w h : Nat)
    (kernel : List Bool) (N : Nat) (cb : σ → σ) (src dst dst' : ImagePlane)
    (s : σ) :
    (dilate σ w h kernel N cb src dst s).1 = src ∧
      (erode σ w h kernel N cb src dst s).1 = src ∧
      (open' σ w h kernel N cb src dst s).1 = src ∧
      (close σ w h kernel N cb src dst s).1 = src ∧
      eqOnPlane w h ((dilate σ w h kernel N cb src dst s).2.1)
        ((dilate σ w h kernel N cb src dst' s).2.1) ∧
      eqOnPlane w h ((erode σ w h kernel N cb src dst s).2.1)
        ((erode σ w h kernel N cb src dst' s).2.1) ∧
      eqOnPlane w h ((open' σ w h kernel N cb src dst s).2.1)
        ((open' σ w h kernel N cb src dst' s).2.1) ∧
      eqOnPlane w h ((close σ w h kernel N cb src dst s).2.1)
        ((close σ w h kernel N cb src dst' s).2.1) :=
  ⟨rfl, rfl, rfl, rfl,
   eqOnPlane_trans (dilate_dst σ w h kernel N cb src dst s)
     (eqOnPlane_symm (dilate_dst σ w h kernel N cb src dst' s)),
   eqOnPlane_trans (erode_dst σ w h kernel N cb src dst s)
     (eqOnPlane_symm (erode_dst σ w h kernel N cb src dst' s)),
   eqOnPlane_trans (open_dst σ w h kernel N cb src dst s)
     (eqOnPlane_symm (open_dst σ w h kernel N cb src dst' s)),
   eqOnPlane_trans (close_dst σ w h kernel N cb src dst s)
     (eqOnPlane_symm (close_dst σ w h kernel N cb src dst' s))⟩

/-- C10.  With iteration count 0, each of the four operations completes,
reports nothing to the progress sink, and hands the caller an unmodified
copy of the source plane. -/
theorem zero_iterations_copies_source (kernelInt : List Int) (operation : Int)
    (image : ImagePlane) (w h : Nat)
    (hop : operation = 0 ∨ operation = 1 ∨ operation = 2 ∨ operation = 3) :
    processInputData kernelInt 0 operation image w h = (true, image, []) := by
  rcases hop with h0 | h1 | h2 | h3
  · rw [h0]; rfl
  · rw [h1]; rfl
  · rw [h2]; rfl
  · rw [h3]; rfl

/-- C10 witness at a concrete instance (operation = Dilate). -/
theorem zero_iterations_copies_source_witness :
    ((0 : Int) = 0 ∨ (0 : Int) = 1 ∨ (0 : Int) = 2 ∨ (0 : Int) = 3) ∧
      processInputData (List.replicate 9 1) 0 0 img22 2 2 = (true, img22, []) :=
  ⟨by decide,
   zero_iterations_copies_source (List.replicate 9 1) 0 img22 2 2 (by decide)⟩

/-- C1.  The code does not use one fixed flag-to-offset mapping at every
pixel: the flat kernel index advances only for in-bounds neighbours, so at
the boundary pixel (0, 0) of a 2 × 2 raster the single active flag of
`cornerK` (flat index 0, offset (-1, -1)) is matched to the first in-bounds
neighbour — the pixel itself — and one Dilate pass turns (0, 0) foreground,
whereas the specification's fixed mapping leaves it background. -/
theorem dilate_flag_offset_mapping_shifts_at_boundary :
    (dilate Unit 2 2 cornerK 1 id img22 zeroPlane ()).2.1 0 0 = 1 ∧
      appPixelSpec 1 0 2 2 cornerK img22 0 0 = 0 := by
  constructor <;> decide

/-- C2.  With the identity kernel (centre cell active only), one Dilate
iteration is not the identity: on a 1 × 1 all-foreground raster the scan
consumes flat index 0 for the only in-bounds neighbour, never reads the
active flag at index 4, and writes background. -/
theorem dilate_identityKernel_not_identity :
    (dilate Unit 1 1 idK 1 id onePlane zeroPlane ()).2.1 0 0 = 0 ∧
      onePlane 0 0 = 1 := by
  constructor <;> decide

/-- C6.  Scenario A: on the 5 × 5 all-background raster with single
foreground pixel (2, 2), a 3 × 3 all-active kernel, iterations = 1 and
operation Dilate, the result raster is the 3 × 3 block centred at (2, 2)
foreground and everything else background. -/
theorem dilate_scenarioA :
    eqOnPlane 5 5 ((processInputData (List.replicate 9 1) 1 0 imgC6 5 5).2.1)
      expectedC6 := by
  intro x y hxy
  obtain ⟨hx0, hxw, hy0, hyh⟩ := hxy
  interval_cases x <;> interval_cases y <;> decide

/-- C4 counterexample.  Opening (iterations = 1) is not idempotent: on the
1 × 3 column raster `xC4` with structuring element `kC4`, the second
application of Open changes the result again (pixel (0, 2) flips from
foreground to background). -/
theorem open_not_idempotent :
    ¬ eqOnPlane 1 3
        ((open' Unit 1 3 kC4 1 id
            ((open' Unit 1 3 kC4 1 id xC4 zeroPlane ()).2.1) zeroPlane ()).2.1)
        ((open' Unit 1 3 kC4 1 id xC4 zeroPlane ()).2.1) := by
  intro hcontra
  have h := hcontra 0 2 (by decide)
  revert h
  decide

theorem processInputData_fst (kernelInt : List Int) (iterations operation : Int)
    (image : ImagePlane) (w h : Nat) :
    (processInputData kernelInt iterations operation image w h).1 = true := by
  unfold processInputData
  by_cases h0 : operation = 0
  · simp [h0]
  · by_cases h1 : operation = 1
    · simp [h0, h1]
    · by_cases h2 : operation = 2
      · simp [h0, h1, h2]
      · by_cases h3 : operation = 3
        · simp [h0, h1, h2, h3]
        · simp [h0, h1, h2, h3]

theorem processInputData_default (kernelInt : List Int)
    (iterations operation : Int) (image : ImagePlane) (w h : Nat)
    (hop : ¬(operation = 0 ∨ operation = 1 ∨ operation = 2 ∨ operation = 3)) :
    processInputData kernelInt iterations operation image w h
      = (true, freshPlane, []) := by
  push_neg at hop
  obtain ⟨h0, h1, h2, h3⟩ := hop
  unfold processInputData
  simp [h0, h1, h2, h3]

/-- Boolean in-bounds test for a relative offset, matching (the negation of)
the skip condition of the kernel scan. -/
def inB (w h : Nat) (x y : Int) (o : Int × Int) : Bool :=
  !(decide (x + o.2 < 0 ∨ (w : Int) ≤ x + o.2 ∨ y + o.1 < 0 ∨
      (h : Int) ≤ y + o.1))

/-- The all-active 3 × 3 structuring element. -/
def kernel9 : List Bool := List.replicate 9 true

theorem inB_iff (w h : Nat) (x y : Int) (o : Int × Int) :
    inB w h x y o = true ↔ inRange w h (x + o.2) (y + o.1) := by
  unfold inB inRange
  simp only [Bool.not_eq_true', decide_eq_false_iff_not, not_or, not_lt, not_le]

theorem scanFold_frozen (T : Nat) (w h : Nat) (K : List Bool) (f : ImagePlane)
    (x y : Int) :
    ∀ (L : List (Int × Int)) (i : Nat),
      L.foldl (scanStep T w h K f x y) (true, i) = (true, i) := by
  intro L
  induction L with
  | nil => intro i; rfl
  | cons o L ih =>
      intro i
      simp only [List.foldl_cons]
      rw [show scanStep T w h K f x y (true, i) o = (true, i) from rfl]
      exact ih i

theorem scanFold_allones (T : Nat) (w h : Nat) (f : ImagePlane) (x y : Int) :
    ∀ (L : List (Int × Int)) (i₀ : Nat),
      i₀ + L.countP (inB w h x y) ≤ 9 →
      (L.foldl (scanStep T w h kernel9 f x y) (false, i₀)).1
        = L.any fun o => inB w h x y o && (f (x + o.2) (y + o.1) == T) := by
  intro L
  induction L with
  | nil => intro i₀ _; rfl
  | cons o L ih =>
      intro i₀ hbound
      simp only [List.foldl_cons, List.any_cons]
      by_cases hb : x + o.2 < 0 ∨ (w : Int) ≤ x + o.2 ∨ y + o.1 < 0 ∨
          (h : Int) ≤ y + o.1
      · have hib : inB w h x y o = false := by
          unfold inB
          simp [hb]
        have hstep : scanStep T w h kernel9 f x y (false, i₀) o = (false, i₀) := by
          unfold scanStep
          rw [if_neg (by simp), if_pos hb]
        rw [hstep, hib]
        simp only [Bool.false_and, Bool.false_or]
        apply ih
        have hcount : (o :: L).countP (inB w h x y) = L.countP (inB w h x y) := by
          rw [List.countP_cons]
          simp [hib]
        omega
      · have hib : inB w h x y o = true := by
          unfold inB
          simp [hb]
        have hcount : (o :: L).countP (inB w h x y)
            = L.countP (inB w h x y) + 1 := by
          rw [List.countP_cons]
          simp [hib]
        have hi9 : i₀ < 9 := by omega
        have hmask : kernel9.getD i₀ false = true := by
          unfold kernel9
          rw [List.getD_eq_getElem?_getD, List.getElem?_replicate]
          simp [hi9]
        have hstep : scanStep T w h kernel9 f x y (false, i₀) o
            = ((f (x + o.2) (y + o.1) == T), i₀ + 1) := by
          unfold scanStep
          rw [if_neg (by simp), if_neg hb, hmask]
          simp
        rw [hstep, hib]
        simp only [Bool.true_and]
        cases hp : (f (x + o.2) (y + o.1) == T) with
        | true =>
            rw [scanFold_frozen]
            simp
        | false =>
            rw [ih (i₀ + 1) (by omega)]
            simp

theorem appPixel_allones (T F : Nat) (w h : Nat) (f : ImagePlane) (x y : Int) :
    appPixel T F w h kernel9 f x y
      = if ((offsets 1).any fun o =>
            inB w h x y o && (f (x + o.2) (y + o.1) == T)) = true
        then T else F := by
  unfold appPixel
  have hlen : intSqrt kernel9.length / 2 = 1 := by decide
  rw [hlen]
  rw [scanFold_allones T w h f x y (offsets 1) 0 (by
    have h1 : (offsets 1).countP (inB w h x y) ≤ (offsets 1).length :=
      List.countP_le_length _
    have h2 : (offsets 1).length = 9 := by decide
    omega)]

theorem offsets_one_eq :
    offsets 1 = [(-1, -1), (-1, 0), (-1, 1), (0, -1), (0, 0), (0, 1),
      (1, -1), (1, 0), (1, 1)] := by
  decide

theorem mem_offsets_one (o : Int × Int) :
    o ∈ offsets 1 ↔ -1 ≤ o.1 ∧ o.1 ≤ 1 ∧ -1 ≤ o.2 ∧ o.2 ≤ 1 := by
  obtain ⟨a, b⟩ := o
  rw [offsets_one_eq]
  simp only [List.mem_cons, List.not_mem_nil, or_false, Prod.mk.injEq]
  omega

theorem neg_mem_offsets_one {o : Int × Int} (hmem : o ∈ offsets 1) :
    ((-o.1, -o.2) : Int × Int) ∈ offsets 1 := by
  rw [mem_offsets_one] at hmem ⊢
  simp only []
  omega

/-- One Dilate pass with the all-active 3 × 3 element. -/
def dil9 (w h : Nat) (f : ImagePlane) : ImagePlane :=
  generation 1 0 w h kernel9 f

/-- One Erode pass with the all-active 3 × 3 element. -/
def ero9 (w h : Nat) (f : ImagePlane) : ImagePlane :=
  generation 0 1 w h kernel9 f

theorem dil9_vals (w h : Nat) (f : ImagePlane) (x y : Int)
    (hxy : inRange w h x y) :
    dil9 w h f x y = 0 ∨ dil9 w h f x y = 1 := by
  unfold dil9 generation
  rw [if_pos hxy]
  unfold appPixel
  by_cases hc : ((offsets (intSqrt kernel9.length / 2)).foldl
      (scanStep 1 w h kernel9 f x y) (false, 0)).1 = true
  · rw [if_pos hc]
    exact Or.inr rfl
  · rw [if_neg hc]
    exact Or.inl rfl

theorem ero9_vals (w h : Nat) (f : ImagePlane) (x y : Int)
    (hxy : inRange w h x y) :
    ero9 w h f x y = 0 ∨ ero9 w h f x y = 1 := by
  unfold ero9 generation
  rw [if_pos hxy]
  unfold appPixel
  by_cases hc : ((offsets (intSqrt kernel9.length / 2)).foldl
      (scanStep 0 w h kernel9 f x y) (false, 0)).1 = true
  · rw [if_pos hc]
    exact Or.inl rfl
  · rw [if_neg hc]
    exact Or.inr rfl

theorem dil9_eq_one_iff (w h : Nat) (f : ImagePlane) (x y : Int)
    (hxy : inRange w h x y) :
    dil9 w h f x y = 1 ↔
      ∃ o ∈ offsets 1,
        inRange w h (x + o.2) (y + o.1) ∧ f (x + o.2) (y + o.1) = 1 := by
  unfold dil9 generation
  rw [if_pos hxy, appPixel_allones]
  by_cases hany : ((offsets 1).any fun o =>
      inB w h x y o && (f (x + o.2) (y + o.1) == 1)) = true
  · rw [if_pos hany]
    simp only [List.any_eq_true, Bool.and_eq_true, beq_iff_eq, inB_iff] at hany
    exact iff_of_true rfl hany
  · rw [if_neg hany]
    simp only [List.any_eq_true, Bool.and_eq_true, beq_iff_eq, inB_iff] at hany
    exact iff_of_false (by norm_num) hany

theorem ero9_eq_one_iff (w h : Nat) (f : ImagePlane) (x y : Int)
    (hxy : inRange w h x y) :
    ero9 w h f x y = 1 ↔
      ∀ o ∈ offsets 1,
        inRange w h (x + o.2) (y + o.1) → f (x + o.2) (y + o.1) ≠ 0 := by
  unfold ero9 generation
  rw [if_pos hxy, appPixel_allones]
  by_cases hany : ((offsets 1).any fun o =>
      inB w h x y o && (f (x + o.2) (y + o.1) == 0)) = true
  · rw [if_pos hany]
    simp only [List.any_eq_true, Bool.and_eq_true, beq_iff_eq, inB_iff] at hany
    obtain ⟨o, ho, hin, hval⟩ := hany
    exact iff_of_false (by norm_num) (fun H => H o ho hin hval)
  · rw [if_neg hany]
    simp only [List.any_eq_true, Bool.and_eq_true, beq_iff_eq, inB_iff,
      not_exists, not_and] at hany
    exact iff_of_true rfl fun o ho hin => hany o ho hin

theorem dil9_congr {w h : Nat} {f g : ImagePlane} (hfg : eqOnPlane w h f g) :
    eqOnPlane w h (dil9 w h f) (dil9 w h g) :=
  generation_congr 1 0 w h kernel9 f g hfg

theorem ero9_congr {w h : Nat} {f g : ImagePlane} (hfg : eqOnPlane w h f g) :
    eqOnPlane w h (ero9 w h f) (ero9 w h g) :=
  generation_congr 0 1 w h kernel9 f g hfg

theorem ero_dil_ero_allones (w h : Nat) (f : ImagePlane) :
    eqOnPlane w h (ero9 w h (dil9 w h (ero9 w h f))) (ero9 w h f) := by
  intro x y hxy
  have hiff : ero9 w h (dil9 w h (ero9 w h f)) x y = 1 ↔ ero9 w h f x y = 1 := by
    rw [ero9_eq_one_iff w h _ x y hxy, ero9_eq_one_iff w h f x y hxy]
    constructor
    · intro H o ho hin
      have hd := H o ho hin
      have hd1 : dil9 w h (ero9 w h f) (x + o.2) (y + o.1) = 1 := by
        rcases dil9_vals w h (ero9 w h f) (x + o.2) (y + o.1) hin with h0 | h1
        · exact absurd h0 hd
        · exact h1
      rw [dil9_eq_one_iff w h _ _ _ hin] at hd1
      obtain ⟨o', ho', hin', he⟩ := hd1
      rw [ero9_eq_one_iff w h f _ _ hin'] at he
      have hback := he ((-o'.1, -o'.2) : Int × Int) (neg_mem_offsets_one ho')
      have hx1 : x + o.2 + o'.2 + ((-o'.1, -o'.2) : Int × Int).2 = x + o.2 := by
        show x + o.2 + o'.2 + (-o'.2) = x + o.2
        ring
      have hy1 : y + o.1 + o'.1 + ((-o'.1, -o'.2) : Int × Int).1 = y + o.1 := by
        show y + o.1 + o'.1 + (-o'.1) = y + o.1
        ring
      rw [hx1, hy1] at hback
      exact hback hin
    · intro H o ho hin
      have hx1 : x + o.2 + ((-o.1, -o.2) : Int × Int).2 = x := by
        show x + o.2 + (-o.2) = x
        ring
      have hy1 : y + o.1 + ((-o.1, -o.2) : Int × Int).1 = y := by
        show y + o.1 + (-o.1) = y
        ring
      have hd1 : dil9 w h (ero9 w h f) (x + o.2) (y + o.1) = 1 := by
        rw [dil9_eq_one_iff w h _ _ _ hin]
        refine ⟨((-o.1, -o.2) : Int × Int), neg_mem_offsets_one ho, ?_, ?_⟩
        · rw [hx1, hy1]
          exact hxy
        · rw [hx1, hy1]
          rw [ero9_eq_one_iff w h f x y hxy]
          exact H
      rw [hd1]
      norm_num
  rcases ero9_vals w h (dil9 w h (ero9 w h f)) x y hxy with h1 | h1 <;>
    rcases ero9_vals w h f x y hxy with h2 | h2
  · rw [h1, h2]
  · exact absurd (hiff.mpr h2) (by rw [h1]; norm_num)
  · exact absurd (hiff.mp h1) (by rw [h2]; norm_num)
  · rw [h1, h2]

theorem dil_ero_dil_allones (w h : Nat) (f : ImagePlane) :
    eqOnPlane w h (dil9 w h (ero9 w h (dil9 w h f))) (dil9 w h f) := by
  intro x y hxy
  have hiff : dil9 w h (ero9 w h (dil9 w h f)) x y = 1 ↔ dil9 w h f x y = 1 := by
    constructor
    · intro H
      rw [dil9_eq_one_iff w h _ x y hxy] at H
      obtain ⟨o, ho, hin, he⟩ := H
      rw [ero9_eq_one_iff w h _ _ _ hin] at he
      have hback := he ((-o.1, -o.2) : Int × Int) (neg_mem_offsets_one ho)
      have hx1 : x + o.2 + ((-o.1, -o.2) : Int × Int).2 = x := by
        show x + o.2 + (-o.2) = x
        ring
      have hy1 : y + o.1 + ((-o.1, -o.2) : Int × Int).1 = y := by
        show y + o.1 + (-o.1) = y
        ring
      rw [hx1, hy1] at hback
      have hdne := hback hxy
      rcases dil9_vals w h f x y hxy with h0 | h1
      · exact absurd h0 hdne
      · exact h1
    · intro H
      rw [dil9_eq_one_iff w h f x y hxy] at H
      obtain ⟨o2, ho2, hin2, hf⟩ := H
      rw [dil9_eq_one_iff w h _ x y hxy]
      refine ⟨o2, ho2, hin2, ?_⟩
      rw [ero9_eq_one_iff w h _ _ _ hin2]
      intro o' ho' hin'
      have hx1 : x + o2.2 + o'.2 + ((-o'.1, -o'.2) : Int × Int).2 = x + o2.2 := by
        show x + o2.2 + o'.2 + (-o'.2) = x + o2.2
        ring
      have hy1 : y + o2.1 + o'.1 + ((-o'.1, -o'.2) : Int × Int).1 = y + o2.1 := by
        show y + o2.1 + o'.1 + (-o'.1) = y + o2.1
        ring
      have hd : dil9 w h f (x + o2.2 + o'.2) (y + o2.1 + o'.1) = 1 := by
        rw [dil9_eq_one_iff w h f _ _ hin']
        refine ⟨((-o'.1, -o'.2) : Int × Int), neg_mem_offsets_one ho', ?_, ?_⟩
        · rw [hx1, hy1]
          exact hin2
        · rw [hx1, hy1]
          exact hf
      rw [hd]
      norm_num
  rcases dil9_vals w h (ero9 w h (dil9 w h f)) x y hxy with h1 | h1 <;>
    rcases dil9_vals w h f x y hxy with h2 | h2
  · rw [h1, h2]
  · exact absurd (hiff.mpr h2) (by rw [h1]; norm_num)
  · exact absurd (hiff.mp h1) (by rw [h2]; norm_num)
  · rw [h1, h2]

theorem open_dst_one (σ : Type) (w h : Nat) (cb : σ → σ) (X dst : ImagePlane)
    (s : σ) :
    eqOnPlane w h ((open' σ w h kernel9 1 cb X dst s).2.1)
      (dil9 w h (ero9 w h X)) := by
  have hop := open_dst σ w h kernel9 1 cb X dst s
  rw [Function.iterate_one, Function.iterate_one] at hop
  exact hop

theorem close_dst_one (σ : Type) (w h : Nat) (cb : σ → σ) (X dst : ImagePlane)
    (s : σ) :
    eqOnPlane w h ((close σ w h kernel9 1 cb X dst s).2.1)
      (ero9 w h (dil9 w h X)) := by
  have hcl := close_dst σ w h kernel9 1 cb X dst s
  rw [Function.iterate_one, Function.iterate_one] at hcl
  exact hcl

/-- C4 amended.  With iterations = 1, Opening and Closing are idempotent on
every raster when the structuring element is the fully active 3 × 3 kernel
(for general structuring elements the code violates idempotence, see the
counterexample). -/
theorem open_close_idempotent_allActive (σ σ' : Type) (w h : Nat)
    (cb : σ → σ) (cb' : σ' → σ') (X dst dst' : ImagePlane) (s : σ) (s' : σ') :
    eqOnPlane w h
        ((open' σ' w h kernel9 1 cb'
            ((open' σ w h kernel9 1 cb X dst s).2.1) dst' s').2.1)
        ((open' σ w h kernel9 1 cb X dst s).2.1) ∧
      eqOnPlane w h
        ((close σ' w h kernel9 1 cb'
            ((close σ w h kernel9 1 cb X dst s).2.1) dst' s').2.1)
        ((close σ w h kernel9 1 cb X dst s).2.1) := by
  constructor
  · have h1 := open_dst_one σ w h cb X dst s
    have h2 := open_dst_one σ' w h cb'
      ((open' σ w h kernel9 1 cb X dst s).2.1) dst' s'
    exact eqOnPlane_trans h2 (eqOnPlane_trans (dil9_congr (ero9_congr h1))
      (eqOnPlane_trans (dil9_congr (ero_dil_ero_allones w h X))
        (eqOnPlane_symm h1)))
  · have h1 := close_dst_one σ w h cb X dst s
    have h2 := close_dst_one σ' w h cb'
      ((close σ w h kernel9 1 cb X dst s).2.1) dst' s'
    exact eqOnPlane_trans h2 (eqOnPlane_trans (ero9_congr (dil9_congr h1))
      (eqOnPlane_trans (ero9_congr (dil_ero_dil_allones w h X))
        (eqOnPlane_symm h1)))

/-- C8 counterexample.  An invocation whose structuring-element length (2) is
not a perfect square, whose iteration count (0) is below 1 and whose
operation selector (4) lies outside the enumerated set is not rejected: the
call succeeds (returns true) and still produces a result raster (the freshly
allocated plane, left untouched), with no progress reports — no
ConfigurationError or InvalidOperation failure exists anywhere in the
code. -/
theorem invalid_config_not_rejected :
    (processInputData [1, 1] 0 4 onePlane 1 1).1 = true ∧
      (processInputData [1, 1] 0 4 onePlane 1 1).2.1 = freshPlane ∧
      (processInputData [1, 1] 0 4 onePlane 1 1).2.2 = [] :=
  ⟨rfl, rfl, rfl⟩

/-- C8 amended.  The invocation performs no validation and has no error
path: every call — including one whose structuring-element length is not a
perfect square or whose iteration count is below 1 — returns success, and a
call whose operation selector lies outside {Dilate, Erode, Open, Close}
performs no morphology at all, leaving the freshly allocated result plane
untouched and reporting no progress. -/
theorem processInputData_performs_no_validation (kernelInt : List Int)
    (iterations operation : Int) (image : ImagePlane) (w h : Nat) :
    (processInputData kernelInt iterations operation image w h).1 = true ∧
      (¬(operation = 0 ∨ operation = 1 ∨ operation = 2 ∨ operation = 3) →
        (processInputData kernelInt iterations operation image w h).2.1
            = freshPlane ∧
          (processInputData kernelInt iterations operation image w h).2.2
            = []) := by
  refine ⟨processInputData_fst kernelInt iterations operation image w h, ?_⟩
  intro hop
  rw [processInputData_default kernelInt iterations operation image w h hop]
  exact ⟨rfl, rfl⟩

/-- C8 amended witness at a concrete invalid selector (operation = 4). -/
theorem processInputData_performs_no_validation_witness :
    (processInputData [1, 1] 0 4 img22 2 2).1 = true ∧
      (processInputData [1, 1] 0 4 img22 2 2).2.1 = freshPlane ∧
      (processInputData [1, 1] 0 4 img22 2 2).2.2 = [] :=
  ⟨(processInputData_performs_no_validation [1, 1] 0 4 img22 2 2).1,
   (processInputData_performs_no_validation [1, 1] 0 4 img22 2 2).2
     (by decide)⟩

end IPL
